import Mathlib

/-!
Verification development for the import-watch pipeline
(src/import-watch/watcher.py).

The Python source is shallowly embedded: pure logic becomes Lean
functions; filesystem and network effects become explicit observation
records and oracle functions (a batch responder, per-file upload
outcomes), so that every decision point of the code is represented by a
total, executable definition.
-/

namespace ImportWatch

/-- Image extensions, from IMAGE_EXTENSIONS in watcher.py. -/
def IMAGE_EXTENSIONS : List String :=
  [".jpg", ".jpeg", ".png", ".gif", ".webp", ".heic", ".heif", ".tiff",
   ".tif", ".bmp", ".raw", ".arw", ".cr2", ".nef", ".orf", ".raf", ".dng"]

/-- Video extensions, from VIDEO_EXTENSIONS in watcher.py. -/
def VIDEO_EXTENSIONS : List String :=
  [".mp4", ".mov", ".avi", ".mkv", ".webm", ".m4v", ".3gp", ".mts",
   ".m2ts", ".mpg", ".mpeg"]

/-- SUPPORTED_EXTENSIONS = IMAGE_EXTENSIONS | VIDEO_EXTENSIONS. -/
def SUPPORTED_EXTENSIONS : List String := IMAGE_EXTENSIONS ++ VIDEO_EXTENSIONS

/-- FILE_STABILITY_SECONDS = 5 (watcher.py line 36). -/
def FILE_STABILITY_SECONDS : Int := 5

/-- TAKEOUT_JUNK_FILES (watcher.py lines 39-45). -/
def TAKEOUT_JUNK_FILES : List String :=
  ["archive_browser.html", "print-subscriptions.json",
   "shared_album_comments.json", "user-generated-memory-titles.json",
   "metadata.json"]

/-- Suffix test on strings through their character lists (the core
String.endsWith does not reduce inside the kernel). -/
def endsWithStr (s p : String) : Bool :=
  let a := s.toList
  let b := p.toList
  b == a.drop (a.length - b.length)

/-- Leading-segment test on strings through their character lists. -/
def startsWithStr (s p : String) : Bool :=
  p.toList == s.toList.take p.toList.length

/-- Lower-casing through the character list, as str.lower on the ASCII
names the watcher handles. -/
def toLowerStr (s : String) : String := String.mk (s.toList.map Char.toLower)

/-- Upper-casing through the character list, as str.upper. -/
def toUpperStr (s : String) : String := String.mk (s.toList.map Char.toUpper)

/-- Index of the last dot in a character list, if any. -/
def lastDotIdx (cs : List Char) : Option Nat :=
  ((List.range cs.length).filter (fun i => cs.getD i ' ' == '.')).getLast?

/-- Embedding of pathlib Path.suffix: the extension from the last dot,
empty when the dot is the first character, absent, or the final
character (pathlib computes rfind of the dot and requires
0 < i < len - 1). -/
def pathSuffix (name : String) : String :=
  let cs := name.toList
  match lastDotIdx cs with
  | none => ""
  | some i => if 0 < i && i < cs.length - 1 then String.mk (cs.drop i) else ""

/-- Embedding of pathlib Path.stem: the name minus its suffix. -/
def pathStem (name : String) : String :=
  name.dropRight (pathSuffix name).length

/-- One run of is_file_stable observes the filesystem at a handful of
points; this record packages those observations: existence at the first
check, the first stat's size and mtime, the wall clock at the age test,
existence after the one-second sleep, the size at the second stat, and
whether any of the calls raised OSError/IOError. -/
structure FsObs where
  exists1 : Bool
  size1 : Nat
  mtime : Int
  now : Int
  exists2 : Bool
  size2 : Nat
  osErr : Bool
deriving DecidableEq

/-- Embedding of is_file_stable (watcher.py lines 67-99): not-stable when
the entry is missing, too recently modified, vanished across the
re-check delay, changed size, is empty, or any OS call raised; stable
otherwise. -/
def is_file_stable (o : FsObs) (stability_seconds : Int) : Bool :=
  if o.osErr then false
  else if !o.exists1 then false
  else if o.now - o.mtime < stability_seconds then false
  else if !o.exists2 then false
  else if o.size2 != o.size1 then false
  else if o.size2 == 0 then false
  else true

/-- A path relative to the extraction working directory, as its list of
components; the model of the working directory is the list of its files'
relative paths (directories exist implicitly as path segments). -/
abbrev RelPath := List String

/-- Component-wise path containment: startsPath d p is true when d is an
initial segment of p. -/
def startsPath : List String → List String → Bool
  | [], _ => true
  | _ :: _, [] => false
  | a :: as, b :: bs => a == b && startsPath as bs

/-- Embedding of Path.exists relative to the working directory: the path
is itself a file or an ancestor of one. -/
def pexists (fs : List RelPath) (p : RelPath) : Bool :=
  fs.any (fun q => startsPath p q)

/-- True when p lies strictly under directory d, the set rglob ranges
over. -/
def underDir (d : RelPath) (p : RelPath) : Bool :=
  startsPath d p && d.length < p.length

/-- Final component of a path (the file's name). -/
def lastName (p : RelPath) : String := p.getLast?.getD ""

/-- A name matches the media-collection globs when it ends in a
supported extension, lower-case or upper-case (watcher.py lines
162-164). -/
def isMediaName (n : String) : Bool :=
  SUPPORTED_EXTENSIONS.any (fun e => endsWithStr n e || endsWithStr n (toUpperStr e))

/-- Collision-renamed candidate name: stem, underscore, counter, then
the extension (watcher.py line 180). -/
def mkCand (stem sfx : String) (k : Nat) : String :=
  stem ++ "_" ++ toString k ++ sfx

/-- Embedding of the while-loop of watcher.py lines 179-181: try
stem_k, stem_k+1, ... until a name free at the root is found. The fuel
argument bounds the unbounded Python loop; none models the branch the
loop never exits, which moveAll then treats as a skipped move. -/
def resolveLoop (fs : List RelPath) (stem sfx : String) : Nat → Nat → Option String
  | _, 0 => none
  | k, fuel + 1 =>
    let cand := mkCand stem sfx k
    if pexists fs [cand] then resolveLoop fs stem sfx (k + 1) fuel
    else some cand

/-- Embedding of target selection (watcher.py lines 172-181): the plain
name when free at the root, otherwise the first free numbered
candidate. -/
def resolveName (fs : List RelPath) (nm stem sfx : String) : Option String :=
  if pexists fs [nm] then resolveLoop fs stem sfx 1 (fs.length + 1)
  else some nm

/-- Embedding of the flattening move loop (watcher.py lines 166-187):
each collected media file already at the root is left alone; a vanished
source makes shutil.move raise, which the code logs and skips;
otherwise the file is renamed into the root under its resolved target
name. Returns the final file set and the (source, target) move log. -/
def moveAll : List RelPath → List RelPath → List RelPath × List (RelPath × String)
  | fs, [] => (fs, [])
  | fs, m :: rest =>
    if m.length == 1 then moveAll fs rest
    else if !(fs.contains m) then moveAll fs rest
    else
      match resolveName fs (lastName m) (pathStem (lastName m)) (pathSuffix (lastName m)) with
      | none => moveAll fs rest
      | some t =>
        let fs2 := (fs.erase m).concat [t]
        let r := moveAll fs2 rest
        (r.1, (m, t) :: r.2)

/-- Embedding of cleanup_google_takeout (watcher.py lines 123-219) over
the relative-path filesystem model: select the photos directory, delete
every json file under it, delete junk-named files anywhere, flatten the
collected media files into the root, then remove the photos and Takeout
trees that still hold files (shutil.rmtree; a lone file at those names
makes rmtree raise, which the code swallows) and count the media files
left at the root. The media list is collected in filesystem order - the
source iterates a Python set of extensions and rglob, whose order is
unspecified - and the move fold is proved correct for every order. -/
def cleanup_google_takeout (fs : List RelPath) : List RelPath × Nat :=
  let photosDir : RelPath :=
    if pexists fs ["Takeout", "Google Photos"] then ["Takeout", "Google Photos"]
    else if pexists fs ["Takeout"] then ["Takeout"]
    else if pexists fs ["Google Photos"] then ["Google Photos"]
    else []
  let fs1 := fs.filter (fun p => !(underDir photosDir p && endsWithStr (lastName p) ".json"))
  let fs2 := fs1.filter (fun p => !(TAKEOUT_JUNK_FILES.contains (lastName p)))
  let media := fs2.filter (fun p => underDir photosDir p && isMediaName (lastName p))
  let fs3 := (moveAll fs2 media).1
  let fs4 :=
    if !photosDir.isEmpty && fs3.any (fun p => underDir photosDir p) then
      fs3.filter (fun p => !(startsPath photosDir p))
    else fs3
  let fs5 :=
    if fs4.any (fun p => underDir ["Takeout"] p) then
      fs4.filter (fun p => !(startsPath ["Takeout"] p))
    else fs4
  let cnt := (fs5.filter (fun p =>
    p.length == 1 && SUPPORTED_EXTENSIONS.contains (toLowerStr (pathSuffix (lastName p))))).length
  (fs5, cnt)

/-- The working directory of the C3 scenario: photo1.jpg, its sidecar
photo1.jpg.json, and an unrelated notes.json, all at the root. -/
def c3fs : List RelPath := [["photo1.jpg"], ["photo1.jpg.json"], ["notes.json"]]

/-- One entry of the bulk-check request body: the file path used as the
id together with its content checksum (watcher.py lines 339-342). -/
structure Asset where
  id : String
  checksum : String
deriving DecidableEq

/-- One entry of a bulk-check response: the fields the code inspects
(watcher.py lines 373-376). -/
structure RItem where
  id : String
  action : String
  reason : String
deriving DecidableEq

/-- Outcome of one requests.post call of the bulk check: a 200 response
with parsed results, a non-success status, a requests timeout, or any
other raised error. -/
inductive BatchResult where
  | ok (items : List RItem)
  | httpError (status : Nat)
  | timeout
  | exn
deriving DecidableEq

/-- Ids a 200 response marks as duplicates: action reject with reason
duplicate (watcher.py lines 373-376). -/
def dupMarks (items : List RItem) : List String :=
  (items.filter (fun r => r.action == "reject" && r.reason == "duplicate")).map RItem.id

/-- Ids one batch outcome marks as duplicates; a failed call marks
nothing. -/
def marksOf : BatchResult → List String
  | .ok items => dupMarks items
  | _ => []

/-- True for the outcomes that raise out of the batch loop (timeout or
any other error), reaching the except clauses of watcher.py lines
383-388. -/
def isAbortB : BatchResult → Bool
  | .timeout => true
  | .exn => true
  | _ => false

/-- True for every non-success outcome of a batch call. -/
def isFailureB : BatchResult → Bool
  | .ok _ => false
  | _ => true

/-- Request timeout for a batch: max(120, len(batch) // 50)
(watcher.py line 362). -/
def timeoutFor (n : Nat) : Nat := max 120 (n / 50)

/-- Splits a list into consecutive chunks of k + 1 elements, with fuel
to keep the recursion structural; called with fuel = length, so the
fuel-exhausted branch is never reached. -/
def chunkAux {α : Type} (k : Nat) : Nat → List α → List (List α)
  | _, [] => []
  | 0, xs => [xs]
  | fuel + 1, x :: xs => ((x :: xs).take (k + 1)) :: chunkAux k fuel ((x :: xs).drop (k + 1))

/-- Embedding of the batch slicing of watcher.py line 358-359:
assets[start : start + 5000] for start in range(0, len, 5000) is the
list of consecutive chunks of size k + 1 = 5000. -/
def chunkList {α : Type} (k : Nat) (xs : List α) : List (List α) :=
  chunkAux k xs.length xs

/-- Result of driving the batch loop: the (batch, timeout) pairs
actually posted, the duplicate ids accumulated, and whether an
exception aborted the loop (in which case the accumulated set is
discarded, as the except clauses return an empty set). -/
structure RunOut where
  sub : List (List Asset × Nat)
  dups : List String
  aborted : Bool
deriving DecidableEq

/-- Embedding of the batch loop of watcher.py lines 358-379: each batch
is posted with its size-derived timeout; a 200 response contributes its
duplicate marks, a non-success response contributes nothing and the
loop continues, and a raised timeout or other error ends the run with
every accumulated mark discarded. -/
def runBatches (respond : List Asset → BatchResult) : List (List Asset) → RunOut
  | [] => ⟨[], [], false⟩
  | b :: rest =>
    match respond b with
    | .ok items =>
      let r := runBatches respond rest
      ⟨(b, timeoutFor b.length) :: r.sub,
       if r.aborted then [] else dupMarks items ++ r.dups, r.aborted⟩
    | .httpError _ =>
      let r := runBatches respond rest
      ⟨(b, timeoutFor b.length) :: r.sub,
       if r.aborted then [] else r.dups, r.aborted⟩
    | .timeout => ⟨[(b, timeoutFor b.length)], [], true⟩
    | .exn => ⟨[(b, timeoutFor b.length)], [], true⟩

/-- One candidate file of process_directory, carrying the observations
and oracle outcomes of the effectful calls made on it: the stat-based
classification fields, its stability verdict, whether it still exists
when the upload loop reaches it, the content hash (none when hashing
raised OSError/IOError), and the (success, was_duplicate) pair
upload_file would classify its upload response into. -/
structure FileInfo where
  path : String
  name : String
  isFile : Bool
  stable : Bool
  existsAtAction : Bool
  hashResult : Option String
  uploadResult : Bool × Bool
deriving DecidableEq

/-- Embedding of the hashing loop of watcher.py lines 336-345: files
whose hash raised are logged and left out of the request body. -/
def assetsOf (files : List FileInfo) : List Asset :=
  files.filterMap (fun f => f.hashResult.map (fun c => ⟨f.path, c⟩))

/-- Embedding of check_duplicates_bulk (watcher.py lines 313-388):
hash the candidates, return the empty set when nothing hashed, else
post the 5000-sized batches and collect the duplicate ids, an aborting
error discarding everything. Returns the posted (batch, timeout) log
and the duplicate id set. -/
def check_duplicates_bulk (files : List FileInfo) (respond : List Asset → BatchResult) :
    List (List Asset × Nat) × List String :=
  let assets := assetsOf files
  if assets.isEmpty then ([], [])
  else
    let r := runBatches respond (chunkList 4999 assets)
    (r.sub, r.dups)

/-- Hidden or temporary names are skipped (watcher.py line 454). -/
def isHiddenName (n : String) : Bool :=
  startsWithStr n "." || startsWithStr n "~"

/-- The lower-cased suffix the filters of process_directory inspect. -/
def suffixLower (f : FileInfo) : String := toLowerStr (pathSuffix f.name)

/-- Embedding of the candidate filter of watcher.py lines 450-459: a
regular file, not hidden or temporary, not a zip, with a supported
extension; stability is checked after these, so it is kept separate. -/
def passesFilter (f : FileInfo) : Bool :=
  f.isFile && !isHiddenName f.name && !(suffixLower f == ".zip")
    && SUPPORTED_EXTENSIONS.contains (suffixLower f)

/-- Observable actions of the per-file loop of process_directory:
unlinking a bulk-confirmed duplicate, calling upload_file with its
classified outcome, and unlinking after a successful upload. -/
inductive Event where
  | dupDelete (p : String)
  | uploadAttempt (p : String) (success wasDup : Bool)
  | uploadDelete (p : String)
deriving DecidableEq

/-- Embedding of the per-file loop of watcher.py lines 474-503: skip
vanished files; a bulk-confirmed duplicate is counted and unlinked when
deletion is configured; otherwise upload_file runs, successful uploads
are counted as new or duplicate by the response flag, and only a
successful upload is followed by an unlink when deletion is
configured. Returns the event log and the (uploaded, duplicates)
counters. -/
def actionLoop (dups : List String) (da : Bool) : List FileInfo → List Event × Nat × Nat
  | [] => ([], 0, 0)
  | f :: rest =>
    let r := actionLoop dups da rest
    if !f.existsAtAction then r
    else if f.path ∈ dups then
      ((if da then [Event.dupDelete f.path] else []) ++ r.1, r.2.1, r.2.2 + 1)
    else
      (Event.uploadAttempt f.path f.uploadResult.1 f.uploadResult.2 ::
        ((if f.uploadResult.1 && da then [Event.uploadDelete f.path] else []) ++ r.1),
       r.2.1 + (if f.uploadResult.1 && !f.uploadResult.2 then 1 else 0),
       r.2.2 + (if f.uploadResult.1 && f.uploadResult.2 then 1 else 0))

/-- Everything one call of process_directory produced: the
stability-confirmed candidate list, the count skipped as unstable, the
posted bulk batches, the duplicate id set, the event log, and the two
counters the function returns. -/
structure ProcResult where
  allFiles : List FileInfo
  skipped : Nat
  submitted : List (List Asset × Nat)
  dups : List String
  events : List Event
  uploaded : Nat
  duplicates : Nat
deriving DecidableEq

/-- Embedding of process_directory (watcher.py lines 442-504): filter
the candidates, count the unstable ones as skipped, return early when
nothing remains, else run the bulk duplicate check and the per-file
upload-or-delete loop. -/
def process_directory (files : List FileInfo) (respond : List Asset → BatchResult)
    (da : Bool) : ProcResult :=
  let allFiles := files.filter (fun f => passesFilter f && f.stable)
  let skipped := (files.filter (fun f => passesFilter f && !f.stable)).length
  if allFiles.isEmpty then ⟨allFiles, skipped, [], [], [], 0, 0⟩
  else
    let cb := check_duplicates_bulk allFiles respond
    let act := actionLoop cb.2 da allFiles
    ⟨allFiles, skipped, cb.1, cb.2, act.1, act.2.1, act.2.2⟩

/-- True for a per-account run that returned, false for one that
raised. -/
def okB (e : Except Unit (Nat × Nat × Nat)) : Bool :=
  match e with
  | .ok _ => true
  | .error _ => false

/-- Embedding of the per-cycle account loop of watcher.py lines
564-583, with each account's whole processing abstracted as one
fallible call: accounts run in order until one raises; the try block
around the loop then stops the cycle. Returns the accounts fully
processed and the account whose processing raised, if any. -/
def run_cycle : List String → (String → Except Unit (Nat × Nat × Nat)) →
    List String × Option String
  | [], _ => ([], none)
  | a :: rest, proc =>
    match proc a with
    | .error _ => ([], some a)
    | .ok _ =>
      let r := run_cycle rest proc
      (a :: r.1, r.2)

/-- The scan loop from cycle index i for n further cycles: every cycle
runs to its end because the except clause catches whatever the account
loop raises (watcher.py lines 557-593). -/
def main_loop_from (accounts : List String)
    (procs : Nat → String → Except Unit (Nat × Nat × Nat)) :
    Nat → Nat → List (List String × Option String)
  | _, 0 => []
  | i, n + 1 => run_cycle accounts (procs i) :: main_loop_from accounts procs (i + 1) n

/-- Embedding of the while-true scan loop of watcher.py lines 557-593,
observed for its first n cycles: cycle i processes the accounts under
that cycle's processing outcomes, catches any error, sleeps, and
continues. -/
def main_loop (accounts : List String)
    (procs : Nat → String → Except Unit (Nat × Nat × Nat)) (n : Nat) :
    List (List String × Option String) :=
  main_loop_from accounts procs 0 n

/-- A stability observation of a settled file: present at both checks,
last modified ten seconds before the age test, same non-zero size
twice, no OS error. -/
def oStable : FsObs := ⟨true, 100, 0, 10, true, 100, false⟩

/-- A stability observation of an old but empty file. -/
def oZero : FsObs := ⟨true, 0, 0, 100, true, 0, false⟩

/-- A candidate file every effectful call succeeds on: supported
extension, stable, still present, hashed, and uploading it returns
success without the duplicate flag. -/
def fOK : FileInfo := ⟨"a.jpg", "a.jpg", true, true, true, some "h", (true, false)⟩

/-- A stable candidate file whose hashing raises an OS error. -/
def fNoHash : FileInfo := ⟨"b.jpg", "b.jpg", true, true, true, none, (true, false)⟩

/-- A single-candidate input list. -/
def files1 : List FileInfo := [fOK]

/-- A two-candidate input list. -/
def files2 : List FileInfo := [fOK, fOK]

/-- A responder whose every batch call returns 200 with no results. -/
def respond0 : List Asset → BatchResult := fun _ => .ok []

/-- A responder whose every batch call returns status 500. -/
def respondHttp : List Asset → BatchResult := fun _ => .httpError 500

/-- A responder whose every batch call raises a timeout. -/
def respondTimeout : List Asset → BatchResult := fun _ => .timeout

/-- A responder marking the asset of fOK as a duplicate. -/
def respondDup : List Asset → BatchResult :=
  fun _ => .ok [⟨"a.jpg", "reject", "duplicate"⟩]

/-- 5001 hashed candidates, one more than the batch size. -/
def files5001 : List FileInfo := List.replicate 5001 fOK

/-- Per-cycle account outcomes where processing the account alice
raises and every other account returns normally. -/
def procsX : Nat → String → Except Unit (Nat × Nat × Nat) :=
  fun _ a => if a == "alice" then .error () else .ok (0, 0, 0)

theorem chunkAux_flatten {α : Type} (k : Nat) :
    ∀ (fuel : Nat) (xs : List α), xs.length ≤ fuel →
      (chunkAux k fuel xs).flatten = xs := by
  intro fuel
  induction fuel with
  | zero =>
    intro xs h
    rw [List.length_eq_zero.mp (Nat.le_zero.mp h)]
    rfl
  | succ n ih =>
    intro xs h
    cases xs with
    | nil => rfl
    | cons x t =>
      simp only [chunkAux, List.flatten_cons]
      rw [ih ((x :: t).drop (k + 1))
        (by simp only [List.length_drop, List.length_cons] at h ⊢; omega)]
      exact List.take_append_drop (k + 1) (x :: t)

theorem chunkAux_length {α : Type} (k : Nat) :
    ∀ (fuel : Nat) (xs : List α), xs.length ≤ fuel →
      (chunkAux k fuel xs).length = (xs.length + k) / (k + 1) := by
  intro fuel
  induction fuel with
  | zero =>
    intro xs h
    rw [List.length_eq_zero.mp (Nat.le_zero.mp h)]
    simp [chunkAux, Nat.div_eq_of_lt]
  | succ n ih =>
    intro xs h
    cases xs with
    | nil => simp [chunkAux, Nat.div_eq_of_lt]
    | cons x t =>
      simp only [chunkAux, List.length_cons]
      rw [ih ((x :: t).drop (k + 1))
        (by simp only [List.length_drop, List.length_cons] at h ⊢; omega)]
      simp only [List.length_drop, List.length_cons]
      by_cases hbig : t.length + 1 ≤ k + 1
      · have h1 : t.length + 1 - (k + 1) = 0 := by omega
        rw [h1]
        have h2 : (1 : Nat) * (k + 1) ≤ t.length + 1 + k := by omega
        have h3 : t.length + 1 + k < (1 + 1) * (k + 1) := by omega
        rw [Nat.div_eq_of_lt (by omega), Nat.div_eq_of_lt_le h2 h3]
      · have h1 : t.length + 1 + k = (t.length + 1 - (k + 1) + k) + (k + 1) := by omega
        rw [h1, Nat.add_div_right _ (Nat.succ_pos k)]

theorem chunkAux_mem_length {α : Type} (k : Nat) :
    ∀ (fuel : Nat) (xs : List α) (b : List α), xs.length ≤ fuel →
      b ∈ chunkAux k fuel xs → b.length ≤ k + 1 := by
  intro fuel
  induction fuel with
  | zero =>
    intro xs b h hm
    rw [List.length_eq_zero.mp (Nat.le_zero.mp h)] at hm
    cases hm
  | succ n ih =>
    intro xs b h hm
    cases xs with
    | nil => cases hm
    | cons x t =>
      simp only [chunkAux, List.mem_cons] at hm
      cases hm with
      | inl he => rw [he]; simp [List.length_take]
      | inr ht =>
        exact ih _ b
          (by simp only [List.length_drop, List.length_cons] at h ⊢; omega) ht

theorem chunkList_flatten {α : Type} (k : Nat) (xs : List α) :
    (chunkList k xs).flatten = xs :=
  chunkAux_flatten k xs.length xs (le_refl _)

theorem chunkList_length {α : Type} (k : Nat) (xs : List α) :
    (chunkList k xs).length = (xs.length + k) / (k + 1) :=
  chunkAux_length k xs.length xs (le_refl _)

theorem chunkList_mem_length {α : Type} {k : Nat} {xs : List α} {b : List α}
    (h : b ∈ chunkList k xs) : b.length ≤ k + 1 :=
  chunkAux_mem_length k xs.length xs b (le_refl _) h

theorem runBatches_sub_spec (respond : List Asset → BatchResult) :
    ∀ (bs : List (List Asset)) (b : List Asset) (t : Nat),
      (b, t) ∈ (runBatches respond bs).sub → b ∈ bs ∧ t = timeoutFor b.length := by
  intro bs
  induction bs with
  | nil => intro b t h; cases h
  | cons c rest ih =>
    intro b t h
    cases hr : respond c
    case ok items =>
      simp only [runBatches, hr, List.mem_cons, Prod.mk.injEq] at h
      rcases h with ⟨h1, h2⟩ | ht
      · subst h1; exact ⟨List.mem_cons_self _ _, h2⟩
      · obtain ⟨hm, he⟩ := ih b t ht
        exact ⟨List.mem_cons_of_mem c hm, he⟩
    case httpError s =>
      simp only [runBatches, hr, List.mem_cons, Prod.mk.injEq] at h
      rcases h with ⟨h1, h2⟩ | ht
      · subst h1; exact ⟨List.mem_cons_self _ _, h2⟩
      · obtain ⟨hm, he⟩ := ih b t ht
        exact ⟨List.mem_cons_of_mem c hm, he⟩
    case timeout =>
      simp only [runBatches, hr, List.mem_singleton, Prod.mk.injEq] at h
      obtain ⟨h1, h2⟩ := h
      subst h1; exact ⟨List.mem_cons_self _ _, h2⟩
    case exn =>
      simp only [runBatches, hr, List.mem_singleton, Prod.mk.injEq] at h
      obtain ⟨h1, h2⟩ := h
      subst h1; exact ⟨List.mem_cons_self _ _, h2⟩

theorem runBatches_noabort (respond : List Asset → BatchResult) :
    ∀ (bs : List (List Asset)), (∀ b ∈ bs, isAbortB (respond b) = false) →
      (runBatches respond bs).aborted = false ∧
      (runBatches respond bs).sub = bs.map (fun b => (b, timeoutFor b.length)) ∧
      (∀ p, p ∈ (runBatches respond bs).dups ↔ ∃ b ∈ bs, p ∈ marksOf (respond b)) := by
  intro bs
  induction bs with
  | nil =>
    intro h
    refine ⟨rfl, rfl, fun p => ?_⟩
    simp [runBatches]
  | cons c rest ih =>
    intro h
    have hc := h c (List.mem_cons_self c rest)
    have hrest := ih (fun b hb => h b (List.mem_cons_of_mem c hb))
    cases hr : respond c
    case ok items =>
      have hstep : runBatches respond (c :: rest) =
          ⟨(c, timeoutFor c.length) :: (runBatches respond rest).sub,
           dupMarks items ++ (runBatches respond rest).dups, false⟩ := by
        simp [runBatches, hr, hrest.1]
      rw [hstep]
      refine ⟨rfl, by rw [hrest.2.1]; rfl, fun p => ?_⟩
      show p ∈ dupMarks items ++ (runBatches respond rest).dups ↔ _
      rw [List.mem_append, hrest.2.2 p]
      constructor
      · rintro (hm | ⟨b, hb, hmb⟩)
        · exact ⟨c, List.mem_cons_self c rest, by simpa [marksOf, hr] using hm⟩
        · exact ⟨b, List.mem_cons_of_mem c hb, hmb⟩
      · rintro ⟨b, hb, hmb⟩
        rcases List.mem_cons.mp hb with hbe | hbr
        · subst hbe; left; simpa [marksOf, hr] using hmb
        · right; exact ⟨b, hbr, hmb⟩
    case httpError s =>
      have hstep : runBatches respond (c :: rest) =
          ⟨(c, timeoutFor c.length) :: (runBatches respond rest).sub,
           (runBatches respond rest).dups, false⟩ := by
        simp [runBatches, hr, hrest.1]
      rw [hstep]
      refine ⟨rfl, by rw [hrest.2.1]; rfl, fun p => ?_⟩
      show p ∈ (runBatches respond rest).dups ↔ _
      rw [hrest.2.2 p]
      constructor
      · rintro ⟨b, hb, hmb⟩
        exact ⟨b, List.mem_cons_of_mem c hb, hmb⟩
      · rintro ⟨b, hb, hmb⟩
        rcases List.mem_cons.mp hb with hbe | hbr
        · subst hbe; simp [marksOf, hr] at hmb
        · exact ⟨b, hbr, hmb⟩
    case timeout => rw [hr] at hc; cases hc
    case exn => rw [hr] at hc; cases hc

theorem runBatches_abort_of_mem (respond : List Asset → BatchResult) :
    ∀ (bs : List (List Asset)), (∃ b ∈ bs, isAbortB (respond b) = true) →
      (runBatches respond bs).aborted = true := by
  intro bs
  induction bs with
  | nil => rintro ⟨b, hb, _⟩; cases hb
  | cons c rest ih =>
    rintro ⟨b, hb, hab⟩
    rcases List.mem_cons.mp hb with hbe | hbr
    · subst hbe
      cases hr : respond b
      case ok items => rw [hr] at hab; cases hab
      case httpError s => rw [hr] at hab; cases hab
      case timeout => simp [runBatches, hr]
      case exn => simp [runBatches, hr]
    · have hra := ih ⟨b, hbr, hab⟩
      cases hr : respond c
      case ok items => simp [runBatches, hr, hra]
      case httpError s => simp [runBatches, hr, hra]
      case timeout => simp [runBatches, hr]
      case exn => simp [runBatches, hr]

theorem runBatches_dups_nil_of_abort (respond : List Asset → BatchResult) :
    ∀ (bs : List (List Asset)), (runBatches respond bs).aborted = true →
      (runBatches respond bs).dups = [] := by
  intro bs
  induction bs with
  | nil => intro h; cases h
  | cons c rest ih =>
    intro h
    cases hr : respond c
    case ok items =>
      simp only [runBatches, hr] at h ⊢
      rw [if_pos h]
    case httpError s =>
      simp only [runBatches, hr] at h ⊢
      rw [if_pos h]
    case timeout => simp [runBatches, hr]
    case exn => simp [runBatches, hr]

theorem runBatches_dups_subset (respond : List Asset → BatchResult)
    (hs : ∀ b, marksOf (respond b) ⊆ b.map Asset.id) :
    ∀ (bs : List (List Asset)),
      (runBatches respond bs).dups ⊆ (bs.map (fun b => b.map Asset.id)).flatten := by
  intro bs
  induction bs with
  | nil => simp [runBatches]
  | cons c rest ih =>
    cases hr : respond c
    case ok items =>
      simp only [runBatches, hr, List.map_cons, List.flatten_cons]
      by_cases hab : (runBatches respond rest).aborted = true
      · rw [if_pos hab]; exact List.nil_subset _
      · rw [if_neg hab]
        intro x hx
        rcases List.mem_append.mp hx with hx1 | hx2
        · exact List.mem_append_left _ (hs c (by simpa [marksOf, hr] using hx1))
        · exact List.mem_append_right _ (ih hx2)
    case httpError s =>
      simp only [runBatches, hr, List.map_cons, List.flatten_cons]
      by_cases hab : (runBatches respond rest).aborted = true
      · rw [if_pos hab]; exact List.nil_subset _
      · rw [if_neg hab]
        intro x hx
        exact List.mem_append_right _ (ih hx)
    case timeout => simp [runBatches, hr]
    case exn => simp [runBatches, hr]

theorem mem_assetsOf_ids (files : List FileInfo) (x : String) :
    x ∈ (assetsOf files).map Asset.id ↔
      ∃ g ∈ files, g.path = x ∧ g.hashResult ≠ none := by
  induction files with
  | nil => simp [assetsOf]
  | cons f rest ih =>
    cases hh : f.hashResult with
    | none =>
      simp only [assetsOf, List.filterMap_cons, hh, Option.map_none']
      simp only [assetsOf] at ih
      rw [ih]
      constructor
      · rintro ⟨g, hg, hp, hn⟩
        exact ⟨g, List.mem_cons_of_mem f hg, hp, hn⟩
      · rintro ⟨g, hg, hp, hn⟩
        rcases List.mem_cons.mp hg with he | hr2
        · subst he; exact absurd hh hn
        · exact ⟨g, hr2, hp, hn⟩
    | some c =>
      simp only [assetsOf, List.filterMap_cons, hh, Option.map_some', List.map_cons,
        List.mem_cons]
      simp only [assetsOf] at ih
      rw [ih]
      constructor
      · rintro (he | ⟨g, hg, hp, hn⟩)
        · exact ⟨f, Or.inl rfl, he.symm, by rw [hh]; intro hc; cases hc⟩
        · exact ⟨g, Or.inr hg, hp, hn⟩
      · rintro ⟨g, hg, hp, hn⟩
        rcases hg with he | hr2
        · subst he; left; exact hp.symm
        · right; exact ⟨g, hr2, hp, hn⟩

theorem assetsOf_ids_subset (files : List FileInfo) :
    ((assetsOf files).map Asset.id) ⊆ files.map FileInfo.path := by
  intro x hx
  obtain ⟨g, hg, hp, _⟩ := (mem_assetsOf_ids files x).mp hx
  rw [List.mem_map]
  exact ⟨g, hg, hp⟩

theorem assetsOf_ids_nodup (files : List FileInfo)
    (h : (files.map FileInfo.path).Nodup) :
    ((assetsOf files).map Asset.id).Nodup := by
  induction files with
  | nil => simp [assetsOf]
  | cons f rest ih =>
    rw [List.map_cons, List.nodup_cons] at h
    cases hh : f.hashResult with
    | none =>
      simp only [assetsOf, List.filterMap_cons, hh, Option.map_none']
      simp only [assetsOf] at ih
      exact ih h.2
    | some c =>
      simp only [assetsOf, List.filterMap_cons, hh, Option.map_some', List.map_cons]
      rw [List.nodup_cons]
      constructor
      · intro hx
        exact h.1 (assetsOf_ids_subset rest hx)
      · simp only [assetsOf] at ih
        exact ih h.2

theorem assetsOf_length (files : List FileInfo)
    (h : ∀ f ∈ files, f.hashResult ≠ none) :
    (assetsOf files).length = files.length := by
  induction files with
  | nil => rfl
  | cons f rest ih =>
    cases hh : f.hashResult with
    | none => exact absurd hh (h f (List.mem_cons_self f rest))
    | some c =>
      simp only [assetsOf, List.filterMap_cons, hh, Option.map_some', List.length_cons]
      simp only [assetsOf] at ih
      rw [ih (fun g hg => h g (List.mem_cons_of_mem f hg))]

theorem actionLoop_mem_spec :
    ∀ (l : List FileInfo) (dups : List String) (da : Bool) (x : Event),
      x ∈ (actionLoop dups da l).1 →
      ∃ f, f ∈ l ∧ f.existsAtAction = true ∧
        ((f.path ∈ dups ∧ da = true ∧ x = Event.dupDelete f.path) ∨
         (f.path ∉ dups ∧
           (x = Event.uploadAttempt f.path f.uploadResult.1 f.uploadResult.2 ∨
            (f.uploadResult.1 = true ∧ da = true ∧ x = Event.uploadDelete f.path)))) := by
  intro l
  induction l with
  | nil => intro dups da x h; cases h
  | cons f rest ih =>
    intro dups da x h
    cases hex : f.existsAtAction with
    | false =>
      simp only [actionLoop, hex, Bool.not_false, if_true] at h
      obtain ⟨g, hg, hrest⟩ := ih dups da x h
      exact ⟨g, List.mem_cons_of_mem f hg, hrest⟩
    | true =>
      simp only [actionLoop, hex, Bool.not_true, if_false] at h
      by_cases hdup : f.path ∈ dups
      · rw [if_pos hdup] at h
        rcases List.mem_append.mp h with h1 | h2
        · cases da with
          | false => simp at h1
          | true =>
            simp only [if_true, List.mem_singleton] at h1
            exact ⟨f, List.mem_cons_self f rest, hex, Or.inl ⟨hdup, rfl, h1⟩⟩
        · obtain ⟨g, hg, hrest⟩ := ih dups da x h2
          exact ⟨g, List.mem_cons_of_mem f hg, hrest⟩
      · rw [if_neg hdup] at h
        rcases List.mem_cons.mp h with h1 | h2
        · exact ⟨f, List.mem_cons_self f rest, hex, Or.inr ⟨hdup, Or.inl h1⟩⟩
        · rcases List.mem_append.mp h2 with h3 | h4
          · by_cases hcond : (f.uploadResult.1 && da) = true
            · rw [if_pos hcond] at h3
              rw [List.mem_singleton] at h3
              rw [Bool.and_eq_true] at hcond
              exact ⟨f, List.mem_cons_self f rest, hex,
                Or.inr ⟨hdup, Or.inr ⟨hcond.1, hcond.2, h3⟩⟩⟩
            · rw [if_neg hcond] at h3; cases h3
          · obtain ⟨g, hg, hrest⟩ := ih dups da x h4
            exact ⟨g, List.mem_cons_of_mem f hg, hrest⟩

theorem actionLoop_attempt_mem :
    ∀ (l : List FileInfo) (dups : List String) (da : Bool) (f : FileInfo),
      f ∈ l → f.existsAtAction = true → f.path ∉ dups →
      Event.uploadAttempt f.path f.uploadResult.1 f.uploadResult.2
        ∈ (actionLoop dups da l).1 := by
  intro l
  induction l with
  | nil => intro dups da f hf; cases hf
  | cons g rest ih =>
    intro dups da f hf hex hnd
    rcases List.mem_cons.mp hf with he | hr
    · subst he
      simp only [actionLoop, hex, Bool.not_true, if_false]
      rw [if_neg hnd]
      exact List.mem_cons_self _ _
    · have hmem := ih dups da f hr hex hnd
      cases hgex : g.existsAtAction with
      | false =>
        simp only [actionLoop, hgex, Bool.not_false, if_true]
        exact hmem
      | true =>
        simp only [actionLoop, hgex, Bool.not_true, if_false]
        by_cases hgd : g.path ∈ dups
        · rw [if_pos hgd]
          exact List.mem_append_right _ hmem
        · rw [if_neg hgd]
          exact List.mem_cons_of_mem _ (List.mem_append_right _ hmem)

theorem startsPath_self (p : RelPath) : startsPath p p = true := by
  induction p with
  | nil => rfl
  | cons a as ih => simp [startsPath, ih]

theorem pexists_of_mem {fs : List RelPath} {p : RelPath} (h : p ∈ fs) :
    pexists fs p = true := by
  unfold pexists
  rw [List.any_eq_true]
  exact ⟨p, h, startsPath_self p⟩

theorem not_mem_of_pexists_eq_false {fs : List RelPath} {p : RelPath}
    (h : pexists fs p = false) : p ∉ fs := by
  intro hm
  rw [pexists_of_mem hm] at h
  cases h

theorem resolveLoop_shape (fs : List RelPath) (stem sfx : String) :
    ∀ fuel k t, resolveLoop fs stem sfx k fuel = some t →
      pexists fs [t] = false ∧
      ∃ j, k ≤ j ∧ t = mkCand stem sfx j ∧
        ∀ i, k ≤ i → i < j → pexists fs [mkCand stem sfx i] = true := by
  intro fuel
  induction fuel with
  | zero => intro k t h; cases h
  | succ n ih =>
    intro k t h
    unfold resolveLoop at h
    by_cases hc : pexists fs [mkCand stem sfx k] = true
    · simp only [hc, if_true] at h
      obtain ⟨hfree, j, hkj, ht, hall⟩ := ih (k + 1) t h
      refine ⟨hfree, j, by omega, ht, ?_⟩
      intro i hki hij
      by_cases hik : i = k
      · rw [hik]; exact hc
      · exact hall i (by omega) hij
    · simp only [hc, if_false] at h
      cases h
      exact ⟨by simpa using hc, k, le_refl k, rfl, fun i h1 h2 => by omega⟩

theorem resolveName_fresh {fs : List RelPath} {nm stem sfx t : String}
    (h : resolveName fs nm stem sfx = some t) : pexists fs [t] = false := by
  unfold resolveName at h
  by_cases hc : pexists fs [nm] = true
  · simp only [hc, if_true] at h
    exact (resolveLoop_shape fs stem sfx (fs.length + 1) 1 t h).1
  · simp only [hc, if_false] at h
    cases h
    simpa using hc

theorem resolveName_shape {fs : List RelPath} {nm stem sfx t : String}
    (h : resolveName fs nm stem sfx = some t) (hcol : pexists fs [nm] = true) :
    ∃ j, 1 ≤ j ∧ t = mkCand stem sfx j ∧
      ∀ i, 1 ≤ i → i < j → pexists fs [mkCand stem sfx i] = true := by
  unfold resolveName at h
  simp only [hcol, if_true] at h
  obtain ⟨_, j, h1j, ht, hall⟩ := resolveLoop_shape fs stem sfx (fs.length + 1) 1 t h
  exact ⟨j, h1j, ht, hall⟩

theorem moveAll_nodup : ∀ (media : List RelPath) (fs : List RelPath),
    fs.Nodup → (moveAll fs media).1.Nodup := by
  intro media
  induction media with
  | nil => intro fs h; exact h
  | cons m rest ih =>
    intro fs h
    unfold moveAll
    by_cases h1 : (m.length == 1) = true
    · simp only [h1, if_true]; exact ih fs h
    · simp only [h1, if_false]
      by_cases h2 : fs.contains m = true
      · simp only [h2, Bool.not_true, if_false]
        cases hres : resolveName fs (lastName m) (pathStem (lastName m)) (pathSuffix (lastName m)) with
        | none => exact ih fs h
        | some t =>
          simp only []
          apply ih
          rw [List.concat_eq_append]
          apply List.Nodup.append (h.erase m) (List.nodup_singleton [t])
          intro x hx hxt
          rw [List.mem_singleton] at hxt
          subst hxt
          exact not_mem_of_pexists_eq_false (resolveName_fresh hres)
            (List.mem_of_mem_erase hx)
      · simp only [h2, Bool.not_false, if_true]; exact ih fs h

/-- C2: is_file_stable returns stable only if the entry existed at both
checks, its age met the configured minimum, and the re-checked size is
unchanged and non-zero; an OS error yields not-stable, and a zero-byte
file is never stable whatever its age. -/
theorem C2_is_file_stable_contract (o : FsObs) (s : Int) :
    (is_file_stable o s = true →
      o.exists1 = true ∧ s ≤ o.now - o.mtime ∧ o.exists2 = true ∧
      o.size2 = o.size1 ∧ o.size2 ≠ 0 ∧ o.osErr = false)
    ∧ (o.osErr = true → is_file_stable o s = false)
    ∧ (o.size1 = 0 ∨ o.size2 = 0 → is_file_stable o s = false) := by
  obtain ⟨e1, s1, mt, nw, e2, s2, er⟩ := o
  simp only [is_file_stable]
  cases er <;> cases e1 <;> cases e2 <;>
    by_cases hlt : nw - mt < s <;>
    by_cases hs : s2 = s1 <;>
    by_cases hz : s2 = 0 <;>
    simp_all

/-- C2 witness: a settled ten-second-old file is reported stable and
the contract's conclusions hold for it; an old zero-byte file is
reported not-stable. -/
theorem C2_witness :
    is_file_stable oStable 5 = true ∧
    (5 : Int) ≤ oStable.now - oStable.mtime ∧
    oStable.size2 ≠ 0 ∧
    is_file_stable oZero 5 = false := by
  refine ⟨by decide, ?_, ?_, ?_⟩
  · exact ((C2_is_file_stable_contract oStable 5).1 (by decide)).2.1
  · exact ((C2_is_file_stable_contract oStable 5).1 (by decide)).2.2.2.2.1
  · exact (C2_is_file_stable_contract oZero 5).2.2 (Or.inr rfl)

/-- C3 counterexample: in the working directory holding photo1.jpg, its
sidecar photo1.jpg.json and the unrelated notes.json, normalization
does not retain notes.json even though it is not in the known-junk
list: the json sweep of cleanup_google_takeout deletes every json file
under the photos directory. -/
theorem C3_counterexample :
    ¬ (["notes.json"] ∈ (cleanup_google_takeout c3fs).1) ∧
    TAKEOUT_JUNK_FILES.contains "notes.json" = false := by
  constructor
  · decide
  · decide

/-- C3 amended: normalization removes photo1.jpg.json and also removes
notes.json - every json file under the photos directory is deleted
regardless of the junk list - and leaves photo1.jpg as the single media
file at the directory root. -/
theorem C3_takeout_cleanup_example :
    cleanup_google_takeout c3fs = ([["photo1.jpg"]], 1) := by decide

/-- C4: during flattening, a resolved move target never already exists
at the root (so no move overwrites an existing file, and distinctness
of the file set is preserved by the whole move loop), and whenever the
plain name collides the chosen target is stem_j for the first free j
counting from 1. -/
theorem C4_collision_rename_no_overwrite :
    (∀ (fs : List RelPath) (nm stem sfx t : String),
      resolveName fs nm stem sfx = some t → pexists fs [t] = false)
    ∧ (∀ (fs : List RelPath) (nm stem sfx t : String),
        resolveName fs nm stem sfx = some t → pexists fs [nm] = true →
        ∃ j, 1 ≤ j ∧ t = mkCand stem sfx j ∧
          ∀ i, 1 ≤ i → i < j → pexists fs [mkCand stem sfx i] = true)
    ∧ (∀ (fs media : List RelPath), fs.Nodup → (moveAll fs media).1.Nodup) := by
  refine ⟨?_, ?_, ?_⟩
  · intro fs nm stem sfx t h
    exact resolveName_fresh h
  · intro fs nm stem sfx t h hcol
    exact resolveName_shape h hcol
  · intro fs media h
    exact moveAll_nodup media fs h

/-- C4 witness: with x.jpg already at the root, the colliding move of
a/x.jpg resolves to the fresh name x_1.jpg, and flattening two
colliding subdirectory files on top of that root keeps the file set
duplicate-free. -/
theorem C4_witness :
    resolveName [["a", "x.jpg"], ["b", "x.jpg"], ["x.jpg"]] "x.jpg" "x" ".jpg"
      = some "x_1.jpg" ∧
    pexists [["a", "x.jpg"], ["b", "x.jpg"], ["x.jpg"]] ["x_1.jpg"] = false ∧
    (moveAll [["a", "x.jpg"], ["b", "x.jpg"], ["x.jpg"]]
      [["a", "x.jpg"], ["b", "x.jpg"]]).1.Nodup := by
  refine ⟨by decide, ?_, ?_⟩
  · exact C4_collision_rename_no_overwrite.1 _ "x.jpg" "x" ".jpg" _ (by decide)
  · exact C4_collision_rename_no_overwrite.2.2 _ _ (by decide)

theorem check_duplicates_bulk_eq (files : List FileInfo)
    (respond : List Asset → BatchResult)
    (hne : (assetsOf files).isEmpty = false) :
    check_duplicates_bulk files respond =
      ((runBatches respond (chunkList 4999 (assetsOf files))).sub,
       (runBatches respond (chunkList 4999 (assetsOf files))).dups) := by
  simp [check_duplicates_bulk, hne]

theorem check_duplicates_bulk_empty (files : List FileInfo)
    (respond : List Asset → BatchResult)
    (hae : (assetsOf files).isEmpty = true) :
    check_duplicates_bulk files respond = ([], []) := by
  simp [check_duplicates_bulk, hae]

theorem runBatches_failure_excluded (respond : List Asset → BatchResult)
    (hs : ∀ b2, marksOf (respond b2) ⊆ b2.map Asset.id) :
    ∀ (bs : List (List Asset)),
      ((bs.map (fun b => b.map Asset.id)).flatten).Nodup →
      ∀ (b : List Asset) (t : Nat), (b, t) ∈ (runBatches respond bs).sub →
        isFailureB (respond b) = true →
        ∀ x ∈ b.map Asset.id, x ∉ (runBatches respond bs).dups := by
  intro bs
  induction bs with
  | nil => intro _ b t hmem; cases hmem
  | cons c rest ih =>
    intro hnd b t hmem hfail x hx
    rw [List.map_cons, List.flatten_cons, List.nodup_append] at hnd
    obtain ⟨hnd1, hnd2, hdisj⟩ := hnd
    cases hr : respond c
    case ok items =>
      have hd : (runBatches respond (c :: rest)).dups =
          (if (runBatches respond rest).aborted = true then []
           else dupMarks items ++ (runBatches respond rest).dups) := by
        simp [runBatches, hr]
      simp only [runBatches, hr, List.mem_cons, Prod.mk.injEq] at hmem
      rcases hmem with ⟨hbc, htc⟩ | hmemr
      · subst hbc
        rw [hr] at hfail
        cases hfail
      · have hbrest := (runBatches_sub_spec respond rest b t hmemr).1
        intro hxd
        rw [hd] at hxd
        by_cases hab : (runBatches respond rest).aborted = true
        · rw [if_pos hab] at hxd; cases hxd
        · rw [if_neg hab] at hxd
          rcases List.mem_append.mp hxd with hx1 | hx2
          · have hxc : x ∈ c.map Asset.id :=
              hs c (by simpa [marksOf, hr] using hx1)
            have hxrest : x ∈ (rest.map (fun b2 => b2.map Asset.id)).flatten := by
              rw [List.mem_flatten]
              exact ⟨b.map Asset.id,
                List.mem_map_of_mem (fun b2 => b2.map Asset.id) hbrest, hx⟩
            exact hdisj hxc hxrest
          · exact ih hnd2 b t hmemr hfail x hx hx2
    case httpError s =>
      have hd : (runBatches respond (c :: rest)).dups =
          (if (runBatches respond rest).aborted = true then []
           else (runBatches respond rest).dups) := by
        simp [runBatches, hr]
      simp only [runBatches, hr, List.mem_cons, Prod.mk.injEq] at hmem
      rcases hmem with ⟨hbc, htc⟩ | hmemr
      · subst hbc
        intro hxd
        rw [hd] at hxd
        by_cases hab : (runBatches respond rest).aborted = true
        · rw [if_pos hab] at hxd; cases hxd
        · rw [if_neg hab] at hxd
          have hxrest := runBatches_dups_subset respond hs rest hxd
          exact hdisj hx hxrest
      · have hbrest := (runBatches_sub_spec respond rest b t hmemr).1
        intro hxd
        rw [hd] at hxd
        by_cases hab : (runBatches respond rest).aborted = true
        · rw [if_pos hab] at hxd; cases hxd
        · rw [if_neg hab] at hxd
          exact ih hnd2 b t hmemr hfail x hx hxd
    case timeout =>
      intro hxd
      simp [runBatches, hr] at hxd
    case exn =>
      intro hxd
      simp [runBatches, hr] at hxd

/-- C5: with every candidate successfully fingerprinted and no batch
call raising, a run over N files with N above the batch size posts
exactly ceil(N / 5000) batch calls, the posted batches carry exactly
the N fingerprinted entries, and the returned duplicate set is exactly
the union of the ids the responses marked - so the files classified new
are the N submitted files minus the marked duplicates. -/
theorem C5_bulk_batching (files : List FileInfo)
    (respond : List Asset → BatchResult)
    (hall : ∀ f ∈ files, f.hashResult ≠ none)
    (hab : ∀ b, isAbortB (respond b) = false)
    (hN : 5000 < files.length) :
    (check_duplicates_bulk files respond).1.length = (files.length + 4999) / 5000 ∧
    ((check_duplicates_bulk files respond).1.map Prod.fst).flatten = assetsOf files ∧
    (∀ p, p ∈ (check_duplicates_bulk files respond).2 ↔
      ∃ bt ∈ (check_duplicates_bulk files respond).1,
        p ∈ marksOf (respond bt.1)) := by
  have hlen := assetsOf_length files hall
  have hne : (assetsOf files).isEmpty = false := by
    cases hfs : assetsOf files with
    | nil => rw [hfs] at hlen; simp at hlen; omega
    | cons a tl => rfl
  have hrn := runBatches_noabort respond (chunkList 4999 (assetsOf files))
    (fun b _ => hab b)
  rw [check_duplicates_bulk_eq files respond hne]
  refine ⟨?_, ?_, ?_⟩
  · show (runBatches respond (chunkList 4999 (assetsOf files))).sub.length = _
    rw [hrn.2.1, List.length_map, chunkList_length, hlen]
  · show ((runBatches respond (chunkList 4999 (assetsOf files))).sub.map Prod.fst).flatten = _
    rw [hrn.2.1, List.map_map]
    have : (Prod.fst ∘ fun b : List Asset => (b, timeoutFor b.length)) = id := rfl
    rw [this, List.map_id, chunkList_flatten]
  · intro p
    show p ∈ (runBatches respond (chunkList 4999 (assetsOf files))).dups ↔ _
    rw [hrn.2.2 p]
    constructor
    · rintro ⟨b, hb, hmb⟩
      refine ⟨(b, timeoutFor b.length), ?_, hmb⟩
      rw [hrn.2.1, List.mem_map]
      exact ⟨b, hb, rfl⟩
    · rintro ⟨bt, hbt, hmb⟩
      rw [hrn.2.1, List.mem_map] at hbt
      obtain ⟨b, hb, hbe⟩ := hbt
      refine ⟨b, hb, ?_⟩
      have : bt.1 = b := by rw [← hbe]
      rwa [this] at hmb

/-- C5 witness: 5001 identical hashed candidates exceed the batch size
and the run posts ceil(5001 / 5000) batches. -/
theorem C5_witness :
    5000 < files5001.length ∧
    (check_duplicates_bulk files5001 respond0).1.length
      = (files5001.length + 4999) / 5000 := by
  have h1 : 5000 < files5001.length := by
    simp only [files5001, List.length_replicate]
    norm_num
  refine ⟨h1, (C5_bulk_batching files5001 respond0 ?_ ?_ h1).1⟩
  · intro f hf
    simp only [files5001, List.mem_replicate] at hf
    rw [hf.2]
    decide
  · intro b
    rfl

/-- C6 counterexample: a posted batch of one item and a posted batch of
two items both receive the timeout 120, so a batch with more items is
not given a larger timeout value. -/
theorem C6_counterexample :
    (check_duplicates_bulk files1 respond0).1
      = [([Asset.mk "a.jpg" "h"], 120)] ∧
    (check_duplicates_bulk files2 respond0).1
      = [([Asset.mk "a.jpg" "h", Asset.mk "a.jpg" "h"], 120)] ∧
    (1 : Nat) < 2 ∧ ¬ ((120 : Nat) < 120) := by
  refine ⟨by decide, by decide, by decide, by decide⟩

/-- C6 amended: the request timeout is the maximum of the 120-second
floor and the per-item allowance len // 50 - monotone, but not
strictly - and since a posted batch never exceeds 5000 items, every
batch the function submits is given exactly the 120-second floor. -/
theorem C6_timeout_floor :
    (∀ m n : Nat, m ≤ n → timeoutFor m ≤ timeoutFor n) ∧
    (∀ (files : List FileInfo) (respond : List Asset → BatchResult)
       (b : List Asset) (t : Nat),
      (b, t) ∈ (check_duplicates_bulk files respond).1 →
      t = timeoutFor b.length ∧ b.length ≤ 5000 ∧ t = 120) := by
  constructor
  · intro m n h
    unfold timeoutFor
    exact max_le_max (le_refl 120) (Nat.div_le_div_right h)
  · intro files respond b t hmem
    by_cases hae : (assetsOf files).isEmpty = true
    · rw [check_duplicates_bulk_empty files respond hae] at hmem
      cases hmem
    · rw [check_duplicates_bulk_eq files respond (by
        cases hfs : (assetsOf files).isEmpty
        · rfl
        · exact absurd hfs hae)] at hmem
      obtain ⟨hbmem, ht⟩ := runBatches_sub_spec respond _ b t hmem
      have hble : b.length ≤ 5000 := chunkList_mem_length hbmem
      have hdiv : b.length / 50 ≤ 120 := by
        have h2 : b.length / 50 ≤ 5000 / 50 := Nat.div_le_div_right hble
        norm_num at h2
        omega
      refine ⟨ht, hble, ?_⟩
      rw [ht]
      unfold timeoutFor
      omega

/-- C6 witness: the monotonicity and the floor evaluated on a posted
one-item batch. -/
theorem C6_witness :
    timeoutFor 1 ≤ timeoutFor 5000 ∧
    (120 = timeoutFor ([Asset.mk "a.jpg" "h"].length) ∧
     [Asset.mk "a.jpg" "h"].length ≤ 5000 ∧ (120 : Nat) = 120) := by
  constructor
  · exact C6_timeout_floor.1 1 5000 (by norm_num)
  · exact C6_timeout_floor.2 files1 respond0 [Asset.mk "a.jpg" "h"] 120 (by decide)

/-- C9: if any posted batch raises (timeout or other error), the whole
call returns the empty duplicate set, discarding the classifications of
every earlier successfully completed batch, and every submitted file is
then treated as new. -/
theorem C9_abort_discards_everything (files : List FileInfo)
    (respond : List Asset → BatchResult)
    (h : ∃ b ∈ chunkList 4999 (assetsOf files), isAbortB (respond b) = true) :
    (check_duplicates_bulk files respond).2 = [] ∧
    ∀ f ∈ files, f.path ∉ (check_duplicates_bulk files respond).2 := by
  have hmain : (check_duplicates_bulk files respond).2 = [] := by
    by_cases hae : (assetsOf files).isEmpty = true
    · rw [check_duplicates_bulk_empty files respond hae]
    · rw [check_duplicates_bulk_eq files respond (by
        cases hfs : (assetsOf files).isEmpty
        · rfl
        · exact absurd hfs hae)]
      exact runBatches_dups_nil_of_abort respond _
        (runBatches_abort_of_mem respond _ h)
  refine ⟨hmain, fun f _ => ?_⟩
  rw [hmain]
  exact List.not_mem_nil _

/-- C9 witness: a single aborting batch makes the call return the empty
duplicate set. -/
theorem C9_witness :
    (∃ b ∈ chunkList 4999 (assetsOf files1), isAbortB (respondTimeout b) = true) ∧
    (check_duplicates_bulk files1 respondTimeout).2 = [] := by
  have hex : ∃ b ∈ chunkList 4999 (assetsOf files1),
      isAbortB (respondTimeout b) = true := by decide
  exact ⟨hex, (C9_abort_discards_everything files1 respondTimeout hex).1⟩

theorem process_directory_allFiles (files : List FileInfo)
    (respond : List Asset → BatchResult) (da : Bool) :
    (process_directory files respond da).allFiles
      = files.filter (fun g => passesFilter g && g.stable) := by
  by_cases he : (files.filter (fun g => passesFilter g && g.stable)).isEmpty = true
  · simp [process_directory, he]
  · simp [process_directory, he]

theorem process_directory_submitted (files : List FileInfo)
    (respond : List Asset → BatchResult) (da : Bool)
    (hne : (files.filter (fun g => passesFilter g && g.stable)).isEmpty = false) :
    (process_directory files respond da).submitted
      = (check_duplicates_bulk (files.filter (fun g => passesFilter g && g.stable))
          respond).1 := by
  simp [process_directory, hne]

theorem process_directory_dups (files : List FileInfo)
    (respond : List Asset → BatchResult) (da : Bool)
    (hne : (files.filter (fun g => passesFilter g && g.stable)).isEmpty = false) :
    (process_directory files respond da).dups
      = (check_duplicates_bulk (files.filter (fun g => passesFilter g && g.stable))
          respond).2 := by
  simp [process_directory, hne]

theorem process_directory_events (files : List FileInfo)
    (respond : List Asset → BatchResult) (da : Bool)
    (hne : (files.filter (fun g => passesFilter g && g.stable)).isEmpty = false) :
    (process_directory files respond da).events
      = (actionLoop
          (check_duplicates_bulk (files.filter (fun g => passesFilter g && g.stable))
            respond).2 da
          (files.filter (fun g => passesFilter g && g.stable))).1 := by
  simp [process_directory, hne]

theorem process_directory_empty_fields (files : List FileInfo)
    (respond : List Asset → BatchResult) (da : Bool)
    (he : (files.filter (fun g => passesFilter g && g.stable)).isEmpty = true) :
    (process_directory files respond da).submitted = [] ∧
    (process_directory files respond da).events = [] := by
  refine ⟨?_, ?_⟩ <;> simp [process_directory, he]

theorem isEmpty_false_of_ne (l : List FileInfo) (h : ¬ l.isEmpty = true) :
    l.isEmpty = false := by
  cases hfs : l.isEmpty
  · rfl
  · exact absurd hfs h

theorem nodup_filter_paths (files : List FileInfo)
    (hnd : (files.map FileInfo.path).Nodup) :
    ((files.filter (fun g => passesFilter g && g.stable)).map FileInfo.path).Nodup :=
  List.Nodup.sublist (List.Sublist.map FileInfo.path (List.filter_sublist files)) hnd

/-- C7: when a posted batch's call fails (timeout or non-success
status) and the responder only ever marks ids it was asked about, no
file of that batch lands in the duplicate set, so every such file stays
a candidate and still receives its upload attempt in the same cycle. -/
theorem C7_failed_batch_unknown (files : List FileInfo)
    (respond : List Asset → BatchResult) (da : Bool) (b : List Asset) (t : Nat)
    (f : FileInfo)
    (hsound : ∀ b2, marksOf (respond b2) ⊆ b2.map Asset.id)
    (hnd : (files.map FileInfo.path).Nodup)
    (hmem : (b, t) ∈ (process_directory files respond da).submitted)
    (hfail : isFailureB (respond b) = true)
    (hf : f ∈ (process_directory files respond da).allFiles)
    (hfb : f.path ∈ b.map Asset.id) :
    f.path ∉ (process_directory files respond da).dups ∧
    (f.existsAtAction = true →
      Event.uploadAttempt f.path f.uploadResult.1 f.uploadResult.2
        ∈ (process_directory files respond da).events) := by
  by_cases he : (files.filter (fun g => passesFilter g && g.stable)).isEmpty = true
  · rw [(process_directory_empty_fields files respond da he).1] at hmem
    cases hmem
  · have hne := isEmpty_false_of_ne _ he
    rw [process_directory_submitted files respond da hne] at hmem
    rw [process_directory_allFiles files respond da] at hf
    by_cases hae : (assetsOf (files.filter (fun g => passesFilter g && g.stable))).isEmpty = true
    · rw [check_duplicates_bulk_empty _ respond hae] at hmem
      cases hmem
    · have haf : (assetsOf (files.filter (fun g => passesFilter g && g.stable))).isEmpty = false := by
        cases hfs : (assetsOf (files.filter (fun g => passesFilter g && g.stable))).isEmpty
        · rfl
        · exact absurd hfs hae
      rw [check_duplicates_bulk_eq _ respond haf] at hmem
      have hndids : (((chunkList 4999
          (assetsOf (files.filter (fun g => passesFilter g && g.stable)))).map
            (fun b2 => b2.map Asset.id)).flatten).Nodup := by
        rw [← List.map_flatten, chunkList_flatten]
        exact assetsOf_ids_nodup _ (nodup_filter_paths files hnd)
      have hnotdup : f.path ∉ (runBatches respond (chunkList 4999
          (assetsOf (files.filter (fun g => passesFilter g && g.stable))))).dups :=
        runBatches_failure_excluded respond hsound _ hndids b t hmem hfail f.path hfb
      have hd : (process_directory files respond da).dups = (runBatches respond (chunkList 4999
          (assetsOf (files.filter (fun g => passesFilter g && g.stable))))).dups := by
        rw [process_directory_dups files respond da hne,
          check_duplicates_bulk_eq _ respond haf]
      refine ⟨by rw [hd]; exact hnotdup, fun hex => ?_⟩
      rw [process_directory_events files respond da hne]
      apply actionLoop_attempt_mem _ _ da f hf hex
      rw [check_duplicates_bulk_eq _ respond haf]
      exact hnotdup

/-- C7 witness: a single 500-status batch leaves its file unmarked and
the file is uploaded in the same cycle. -/
theorem C7_witness :
    "a.jpg" ∉ (process_directory files1 respondHttp true).dups ∧
    Event.uploadAttempt "a.jpg" true false
      ∈ (process_directory files1 respondHttp true).events := by
  have h := C7_failed_batch_unknown files1 respondHttp true
      [Asset.mk "a.jpg" "h"] 120 fOK
      (fun b2 => by simp [respondHttp, marksOf])
      (by decide) (by decide) rfl (by decide) (by decide)
  exact ⟨h.1, h.2 rfl⟩

/-- C1: in process_directory, a file is unlinked only when the bulk
check classified its path as already-present or its upload call
returned transport-level success, and only files that passed the
candidate filter with a positive stability verdict can ever be
unlinked. -/
theorem C1_delete_only_after_terminal (files : List FileInfo)
    (respond : List Asset → BatchResult) (da : Bool) (p : String)
    (h : Event.dupDelete p ∈ (process_directory files respond da).events ∨
         Event.uploadDelete p ∈ (process_directory files respond da).events) :
    ∃ f, f ∈ files ∧ f.path = p ∧ passesFilter f = true ∧ f.stable = true ∧
      (p ∈ (process_directory files respond da).dups ∨ f.uploadResult.1 = true) := by
  by_cases he : (files.filter (fun g => passesFilter g && g.stable)).isEmpty = true
  · rcases h with h | h <;>
      (rw [(process_directory_empty_fields files respond da he).2] at h; cases h)
  · have hne := isEmpty_false_of_ne _ he
    have hdups := process_directory_dups files respond da hne
    rw [process_directory_events files respond da hne] at h
    rcases h with h | h
    · obtain ⟨f, hfmem, hex, hcase⟩ := actionLoop_mem_spec _ _ _ _ h
      obtain ⟨hfin, hfprop⟩ := List.mem_filter.mp hfmem
      rw [Bool.and_eq_true] at hfprop
      rcases hcase with ⟨hdup, hda, heq⟩ | ⟨hnd2, hrest⟩
      · have hp : p = f.path := by injection heq
        refine ⟨f, hfin, hp.symm, hfprop.1, hfprop.2, Or.inl ?_⟩
        rw [hdups, hp]
        exact hdup
      · rcases hrest with heq2 | ⟨hs2, hda2, heq2⟩ <;> simp at heq2
    · obtain ⟨f, hfmem, hex, hcase⟩ := actionLoop_mem_spec _ _ _ _ h
      obtain ⟨hfin, hfprop⟩ := List.mem_filter.mp hfmem
      rw [Bool.and_eq_true] at hfprop
      rcases hcase with ⟨hdup, hda, heq⟩ | ⟨hnd2, hrest⟩
      · simp at heq
      · rcases hrest with heq2 | ⟨hs2, hda2, heq2⟩
        · simp at heq2
        · have hp : p = f.path := by injection heq2
          exact ⟨f, hfin, hp.symm, hfprop.1, hfprop.2, Or.inr hs2⟩

/-- C1 witness: a bulk-confirmed duplicate is unlinked, and the
invariant yields its terminal outcome. -/
theorem C1_witness :
    Event.dupDelete "a.jpg" ∈ (process_directory files1 respondDup true).events ∧
    ∃ f, f ∈ files1 ∧ f.path = "a.jpg" ∧ passesFilter f = true ∧ f.stable = true ∧
      ("a.jpg" ∈ (process_directory files1 respondDup true).dups ∨
        f.uploadResult.1 = true) := by
  refine ⟨by decide, C1_delete_only_after_terminal files1 respondDup true "a.jpg"
    (Or.inl (by decide))⟩

/-- C10: a stability-confirmed candidate whose hashing raised is left
out of every posted batch (so the bulk check can never classify it as a
known duplicate) yet stays in the candidate list, and process_directory
still attempts its upload in the same cycle. -/
theorem C10_hash_failure_still_uploaded (files : List FileInfo)
    (respond : List Asset → BatchResult) (da : Bool) (f : FileInfo)
    (hf : f ∈ files) (hfil : passesFilter f = true) (hst : f.stable = true)
    (hh : f.hashResult = none) (hex : f.existsAtAction = true)
    (hsound : ∀ b2, marksOf (respond b2) ⊆ b2.map Asset.id)
    (hnd : (files.map FileInfo.path).Nodup) :
    f ∈ (process_directory files respond da).allFiles ∧
    (∀ bt ∈ (process_directory files respond da).submitted,
      f.path ∉ bt.1.map Asset.id) ∧
    Event.uploadAttempt f.path f.uploadResult.1 f.uploadResult.2
      ∈ (process_directory files respond da).events := by
  have hfmem : f ∈ files.filter (fun g => passesFilter g && g.stable) :=
    List.mem_filter.mpr ⟨hf, by rw [hfil, hst]; rfl⟩
  have hne : (files.filter (fun g => passesFilter g && g.stable)).isEmpty = false := by
    cases hc : files.filter (fun g => passesFilter g && g.stable) with
    | nil => rw [hc] at hfmem; cases hfmem
    | cons a tl => rfl
  have hnotin : f.path ∉
      (assetsOf (files.filter (fun g => passesFilter g && g.stable))).map Asset.id := by
    intro hxin
    obtain ⟨g, hg, hgp, hgh⟩ := (mem_assetsOf_ids _ f.path).mp hxin
    have hgfiles : g ∈ files := (List.mem_filter.mp hg).1
    have hgf : g = f := List.inj_on_of_nodup_map hnd hgfiles hf hgp
    rw [hgf] at hgh
    exact hgh hh
  refine ⟨by rw [process_directory_allFiles]; exact hfmem, ?_, ?_⟩
  · intro bt hbt
    rw [process_directory_submitted files respond da hne] at hbt
    by_cases hae : (assetsOf (files.filter (fun g => passesFilter g && g.stable))).isEmpty = true
    · rw [check_duplicates_bulk_empty _ respond hae] at hbt
      cases hbt
    · have haf : (assetsOf (files.filter (fun g => passesFilter g && g.stable))).isEmpty = false := by
        cases hfs : (assetsOf (files.filter (fun g => passesFilter g && g.stable))).isEmpty
        · rfl
        · exact absurd hfs hae
      rw [check_duplicates_bulk_eq _ respond haf] at hbt
      obtain ⟨hbchunk, _⟩ := runBatches_sub_spec respond _ bt.1 bt.2 hbt
      intro hxb
      apply hnotin
      rw [List.mem_map] at hxb ⊢
      obtain ⟨a, ha, hay⟩ := hxb
      refine ⟨a, ?_, hay⟩
      have hmem2 : a ∈ (chunkList 4999
          (assetsOf (files.filter (fun g => passesFilter g && g.stable)))).flatten :=
        List.mem_flatten.mpr ⟨bt.1, hbchunk, ha⟩
      rwa [chunkList_flatten] at hmem2
  · rw [process_directory_events files respond da hne]
    apply actionLoop_attempt_mem _ _ da f hfmem hex
    intro hxd
    by_cases hae : (assetsOf (files.filter (fun g => passesFilter g && g.stable))).isEmpty = true
    · rw [check_duplicates_bulk_empty _ respond hae] at hxd
      cases hxd
    · have haf : (assetsOf (files.filter (fun g => passesFilter g && g.stable))).isEmpty = false := by
        cases hfs : (assetsOf (files.filter (fun g => passesFilter g && g.stable))).isEmpty
        · rfl
        · exact absurd hfs hae
      rw [check_duplicates_bulk_eq _ respond haf] at hxd
      have hsub2 := runBatches_dups_subset respond hsound _ hxd
      rw [← List.map_flatten, chunkList_flatten] at hsub2
      exact hnotin hsub2

/-- C10 witness: the unhashable stable candidate stays in the candidate
list and its upload is attempted. -/
theorem C10_witness :
    fNoHash ∈ (process_directory [fNoHash] respond0 true).allFiles ∧
    Event.uploadAttempt "b.jpg" true false
      ∈ (process_directory [fNoHash] respond0 true).events := by
  have h := C10_hash_failure_still_uploaded [fNoHash] respond0 true fNoHash
    (by decide) (by decide) (by decide) (by decide) (by decide)
    (fun b2 => by simp [respond0, marksOf, dupMarks])
    (by decide)
  exact ⟨h.1, h.2.2⟩

/-- C8 counterexample: with two accounts where only alice's processing
raises, the cycle stops at alice and bob - whose own processing would
have succeeded - is not processed within that cycle, against the claim
that the orchestrator proceeds to the next account in the same cycle. -/
theorem C8_counterexample :
    procsX 0 "bob" = Except.ok (0, 0, 0) ∧
    main_loop ["alice", "bob"] procsX 1 = [([], some "alice")] ∧
    "bob" ∉ (run_cycle ["alice", "bob"] (procsX 0)).1 := by
  refine ⟨rfl, by decide, by decide⟩

/-- C8 amended: an error in one account's processing is caught at the
cycle level: the accounts completed in a cycle are exactly the prefix
before the first failing account, the caught error is that first
failing account's, the remaining accounts of that cycle are skipped,
and the loop always runs every following cycle. -/
theorem C8_cycle_error_skips_rest (accounts : List String)
    (proc : String → Except Unit (Nat × Nat × Nat))
    (procs : Nat → String → Except Unit (Nat × Nat × Nat)) (n : Nat) :
    (run_cycle accounts proc).1 = accounts.takeWhile (fun a => okB (proc a)) ∧
    (run_cycle accounts proc).2
      = (accounts.dropWhile (fun a => okB (proc a))).head? ∧
    (main_loop accounts procs n).length = n := by
  refine ⟨?_, ?_, ?_⟩
  · induction accounts with
    | nil => rfl
    | cons a rest ih =>
      cases hp : proc a with
      | error e => simp [run_cycle, hp, List.takeWhile_cons, okB]
      | ok v => simp [run_cycle, hp, List.takeWhile_cons, okB, ih]
  · induction accounts with
    | nil => rfl
    | cons a rest ih =>
      cases hp : proc a with
      | error e => simp [run_cycle, hp, List.dropWhile_cons, okB]
      | ok v => simp [run_cycle, hp, List.dropWhile_cons, okB, ih]
  · show (main_loop_from accounts procs 0 n).length = n
    have hgen : ∀ (m i : Nat), (main_loop_from accounts procs i m).length = m := by
      intro m
      induction m with
      | zero => intro i; rfl
      | succ k ih => intro i; simp only [main_loop_from, List.length_cons, ih]
    exact hgen n 0

end ImportWatch
